import Mathlib

/-!
Shallow embedding of Harbor core middleware utilities
(src/core/middlewares/util/util.go): registry-manifest URL matching,
mutex-key derivation, memoized backing-store lookups, manifest parsing
with body restoration, and the project policy checker.
-/

set_option maxHeartbeats 1000000

namespace Harbor

/-- An HTTP request, restricted to the parts read by the Go code:
method, URL path, the Content-Type header and the body stream.
The body is `none` when `req.Body == nil`; otherwise it holds the bytes
still readable from the stream. -/
structure Request where
  method : String
  path : String
  contentType : String := ""
  body : Option (List UInt8) := none
deriving DecidableEq

/-- Character class `[a-z0-9]` of the repository-segment part of
`manifestURLRe`. -/
def isLowerAlnum (c : Char) : Bool :=
  c.isLower || c.isDigit

/-- Character class `[._-]`: the single separators allowed inside a
repository segment of `manifestURLRe`. -/
def isSepChar (c : Char) : Bool :=
  c = '.' || c = '_' || c = '-'

/-- Go regexp `\w` without the Unicode flag: `[0-9A-Za-z_]`. -/
def wordCharB (c : Char) : Bool :=
  c.isAlpha || c.isDigit || c = '_'

/-- Character class `[\w.:-]` of the reference part of `manifestURLRe`. -/
def refCharB (c : Char) : Bool :=
  wordCharB c || c = '.' || c = ':' || c = '-'

/-- State machine for the repository-segment pattern
`[a-z0-9]+(?:[._-][a-z0-9]+)*`: the flag records whether the previous
character was alphanumeric (so a separator may follow and the segment
may end). -/
def segOkAux : List Char → Bool → Bool
  | [], seen => seen
  | c :: rest, seen =>
    if isLowerAlnum c then segOkAux rest true
    else if isSepChar c && seen then segOkAux rest false
    else false

/-- A repository segment: nonempty, alphanumeric runs separated by
single `.`, `_` or `-`, starting and ending alphanumeric. -/
def segOkB (l : List Char) : Bool :=
  segOkAux l false

/-- Split a character list at every slash; the slashes are dropped and
the result is always nonempty (n slashes give n+1 pieces). -/
def splitSlash : List Char → List (List Char)
  | [] => [[]]
  | c :: rest =>
    if c = '/' then [] :: splitSlash rest
    else
      match splitSlash rest with
      | p :: ps => (c :: p) :: ps
      | [] => [[c]]

/-- Inverse of `splitSlash`: re-join pieces with a slash between them. -/
def joinSlash : List (List Char) → List Char
  | [] => []
  | [p] => p
  | p :: q :: ps => p ++ '/' :: joinSlash (q :: ps)

/-- The literal `manifests` of `manifestURLRe`. -/
def manifestsChars : List Char :=
  ['m', 'a', 'n', 'i', 'f', 'e', 's', 't', 's']

/-- Match the tail `manifests/([\w][\w.:-]{0,127})` of `manifestURLRe`
at the current position, given the remaining slash-separated pieces.
The first piece must be the literal `manifests` followed by a slash
(hence at least one further piece); the reference is one word character
followed by the greedy run of up to 127 reference characters. -/
def tryLit : List (List Char) → Option (List Char)
  | p :: (c :: cs) :: _ =>
    if p = manifestsChars then
      if wordCharB c then some (c :: (cs.takeWhile refCharB).take 127) else none
    else none
  | _ => none

/-- Leftmost-first greedy matching of `(?:[a-z0-9]+(?:[._-][a-z0-9]+)*/)*`
followed by `manifests/([\w][\w.:-]{0,127})`, over the slash-separated
pieces of the path after `/v2/`.  At every position the engine first
tries to consume one more repository segment (greedy repetition:
each segment is forced to be exactly the text up to the next slash)
and falls back to the literal `manifests/` at the same position.
Returns the repository segments and the captured reference. -/
def matchPieces : List (List Char) → Option (List (List Char) × List Char)
  | [] => none
  | [p] => (tryLit [p]).map fun r => ([], r)
  | p :: q :: rest =>
    if segOkB p then
      match matchPieces (q :: rest) with
      | some (segs, ref) => some (p :: segs, ref)
      | none => (tryLit (p :: q :: rest)).map fun r => ([], r)
    else (tryLit (p :: q :: rest)).map fun r => ([], r)

/-- The regexp `manifestURLRe =
`^/v2/((?:[a-z0-9]+(?:[._-][a-z0-9]+)*/)+)manifests/([\w][\w.:-]{0,127})`
applied at the start of a path (Go `FindStringSubmatch` with the `^`
anchor).  The repetition group must contain at least one segment.
Returns the captured repository (already without its trailing slash,
as `MatchManifestURL` trims it) and the captured reference. -/
def matchManifestURLChars : List Char → Option (List Char × List Char)
  | a :: b :: c :: d :: rest =>
    if a = '/' ∧ b = 'v' ∧ c = '2' ∧ d = '/' then
      match matchPieces (splitSlash rest) with
      | some (s :: segs, ref) => some (joinSlash (s :: segs), ref)
      | _ => none
    else none
  | _ => none

/-- Go `MatchManifestURL`: apply `manifestURLRe` to `req.URL.Path`;
on a match return `(true, repository-without-trailing-slash, reference)`,
otherwise `(false, "", "")`. -/
def MatchManifestURL (req : Request) : Bool × String × String :=
  match matchManifestURLChars req.path.data with
  | some (repo, ref) => (true, String.mk repo, String.mk ref)
  | none => (false, "", "")

/-- Go `MatchPullManifest`: only GET requests are checked against the
manifest URL pattern. -/
def MatchPullManifest (req : Request) : Bool × String × String :=
  if req.method ≠ "GET" then (false, "", "")
  else MatchManifestURL req

/-- Go `MatchPushManifest`: only PUT requests are checked against the
manifest URL pattern. -/
def MatchPushManifest (req : Request) : Bool × String × String :=
  if req.method ≠ "PUT" then (false, "", "")
  else MatchManifestURL req

/-- Lowercase hexadecimal digit, the encoded alphabet of the available
digest algorithms in `github.com/opencontainers/go-digest`. -/
def isLowerHex (c : Char) : Bool :=
  c.isDigit || ('a' ≤ c && c ≤ 'f')

/-- Embedding of `digest.Parse` from `github.com/opencontainers/go-digest`
restricted to return-without-error: the string splits at its first colon
into an available algorithm (`sha256`, `sha384`, `sha512`) and an encoded
part of exactly the algorithm hex length, all lowercase hex.  A
well-formed digest with an unavailable algorithm still yields
`ErrDigestUnsupported`, hence parses with an error and is rejected here. -/
def digestValid (s : String) : Bool :=
  let l := s.data
  let alg := l.takeWhile (· ≠ ':')
  match l.dropWhile (· ≠ ':') with
  | ':' :: enc =>
    ((alg = "sha256".data && enc.length = 64) ||
     (alg = "sha384".data && enc.length = 96) ||
     (alg = "sha512".data && enc.length = 128)) && enc.all isLowerHex
  | _ => false

/-- Go `MatchDeleteManifest`: only DELETE requests; the named return
values start as the result of `MatchManifestURL`, and when the reference
does not parse as a digest only `match` is reset to `false` — the
repository and reference values are returned as already assigned. -/
def MatchDeleteManifest (req : Request) : Bool × String × String :=
  if req.method ≠ "DELETE" then (false, "", "")
  else
    let (m, repository, reference) := MatchManifestURL req
    if ¬ digestValid reference then (false, repository, reference)
    else (m, repository, reference)

/-- Errors reported by the backing store (`dao` package); `dupRows` is
the distinguishable `dao.ErrDupRows` duplicate-row condition. -/
inductive DBErr where
  | dupRows
  | failure (msg : String)
deriving DecidableEq

/-- Embedding of `ocispec.Platform`, carried opaquely through descriptors. -/
structure Platform where
  Architecture : String := ""
  OS : String := ""
deriving DecidableEq

/-- Embedding of `distribution.Descriptor` and the field-identical `ocispec.Descriptor`:
{mediaType, size, digest, urls, annotations, platform}. -/
structure Descriptor where
  MediaType : String := ""
  Size : Int := 0
  Digest : String := ""
  URLs : List String := []
  Annotations : List (String × String) := []
  Platform : Option Platform := none
deriving DecidableEq

/-- Embedding of `models.Blob`: a stored blob row. -/
structure Blob where
  ID : Int := 0
  Digest : String := ""
  ContentType : String := ""
  Size : Int := 0
deriving DecidableEq

/-- Embedding of `models.Artifact`: the registry record of one pushed image instance.
Timestamps are abstract clock values. -/
structure Artifact where
  ID : Int := 0
  PID : Int := 0
  Repo : String := ""
  Tag : String := ""
  Digest : String := ""
  Kind : String := ""
  CreationTime : Nat := 0
  PushTime : Nat := 0
deriving DecidableEq

/-- Embedding of `models.Project`, restricted to the fields this file reads:
the id, and the policy attributes consumed by the policy checker
(each Go accessor method is modelled as one field). -/
structure Project where
  ProjectID : Int := 0
  Name : String := ""
  contentTrust : Bool := false
  vulPrevented : Bool := false
  severityStr : String := ""
  reuseSys : Bool := false
deriving DecidableEq

/-- Embedding of `models.Severity`; only `sevUnknown` is produced directly by the
code under study. -/
inductive Severity where
  | sevNone
  | sevUnknown
  | sevLow
  | sevMedium
  | sevHigh
deriving DecidableEq

/-- Embedding of `models.CVEWhitelist`, carried opaquely; the zero value is the
empty whitelist `wl := models.CVEWhitelist{}`. -/
structure CVEWhitelist where
  ProjectIDW : Int := 0
  Items : List String := []
deriving DecidableEq

/-- Embedding of `ChartVersionInfo` value object. -/
structure ChartVersionInfo where
  ProjectID : Int := 0
  Namespace : String := ""
  ChartName : String := ""
  Version : String := ""
deriving DecidableEq

/-- Embedding of `ImageInfo` value object. -/
structure ImageInfo where
  Repository : String := ""
  Reference : String := ""
  ProjectName : String := ""
  Digest : String := ""
deriving DecidableEq

/-- Embedding of `BlobInfo` value object.  The three lowercase fields model the
memoization cell `blobExist`/`blobExistErr`/`blobExistOnce`: the Go
zero value is `false`/`nil`/not-yet-run, and the `Done` flag records
whether `sync.Once` has fired. -/
structure BlobInfo where
  ProjectID : Int := 0
  ContentType : String := ""
  Size : Int := 0
  Repository : String := ""
  Digest : String := ""
  blobExist : Bool := false
  blobExistErr : Option DBErr := none
  blobExistDone : Bool := false
deriving DecidableEq

/-- Embedding of `ManifestInfo` value object with its two memoization cells
(`manifestExist*` guarded by `manifestExistOnce` and `artifact*`
guarded by `artifactOnce`). -/
structure ManifestInfo where
  ProjectID : Int := 0
  Repository : String := ""
  Tag : String := ""
  Digest : String := ""
  References : List Descriptor := []
  Descriptor : Descriptor := {}
  manifestExist : Bool := false
  manifestExistErr : Option DBErr := none
  manifestExistDone : Bool := false
  artifact : Option Artifact := none
  artifactErr : Option DBErr := none
  artifactDone : Bool := false
  ExclusiveBlobs : List Blob := []
deriving DecidableEq

/-- Go `strings.Join(l, sep)`: empty for the empty list, otherwise the
head followed by `sep`-prefixed copies of the remaining elements. -/
def stringsJoin (l : List String) (sep : String) : String :=
  match l with
  | [] => ""
  | a :: as => as.foldl (fun acc s => acc ++ sep ++ s) a

/-- Modelled from the spec: `utils.ParseRepository` is not among the
provided sources; per the spec the project name is obtained by
"extracting the project-name prefix from the repository path", i.e.
the part of the repository before its first slash. -/
def parseRepositoryProject (repository : String) : String :=
  String.mk (repository.data.takeWhile (· ≠ '/'))

/-- Go `ChartVersionInfo.MutexKey`: join
`["quota", Namespace, "chart", ChartName, "version", Version]` plus the
suffix segments with colons. -/
def ChartVersionInfo.MutexKey (info : ChartVersionInfo) (suffix : List String) : String :=
  stringsJoin (["quota", info.Namespace, "chart", info.ChartName, "version", info.Version]
    ++ suffix) ":"

/-- Go `BlobInfo.MutexKey`: join
`["quota", projectName, "blob", Digest]` plus the suffix segments with
colons, where the project name comes from `ParseRepository`. -/
def BlobInfo.MutexKey (info : BlobInfo) (suffix : List String) : String :=
  stringsJoin (["quota", parseRepositoryProject info.Repository, "blob", info.Digest]
    ++ suffix) ":"

/-- Go `ManifestInfo.MutexKey`: tag-based identity when `Tag` is
nonempty (the push path), digest-based identity otherwise. -/
def ManifestInfo.MutexKey (info : ManifestInfo) (suffix : List String) : String :=
  let projectName := parseRepositoryProject info.Repository
  let a := if info.Tag ≠ "" then ["quota", projectName, "manifest", info.Tag]
           else ["quota", projectName, "manifest", info.Digest]
  stringsJoin (a ++ suffix) ":"

/-- Go `ManifestInfo.BlobMutexKey`: the blob key scoped by the
project of the manifest repository. -/
def ManifestInfo.BlobMutexKey (info : ManifestInfo) (blob : Blob)
    (suffix : List String) : String :=
  stringsJoin (["quota", parseRepositoryProject info.Repository, "blob", blob.Digest]
    ++ suffix) ":"

/-- Go `BlobInfo.BlobExists`: `sync.Once`-guarded call of
`dao.HasBlobInProject(ProjectID, Digest)`.  The backing query is a
parameter; the result is the returned pair, the updated object, and
the number of backing-store queries issued by this call. -/
def BlobInfo.BlobExists (hasBlobInProject : Int → String → Bool × Option DBErr)
    (info : BlobInfo) : (Bool × Option DBErr) × BlobInfo × Nat :=
  if info.blobExistDone then ((info.blobExist, info.blobExistErr), info, 0)
  else
    let r := hasBlobInProject info.ProjectID info.Digest
    (r, { info with blobExist := r.1, blobExistErr := r.2, blobExistDone := true }, 1)

/-- Go `ManifestInfo.fetchArtifact`: `sync.Once`-guarded call of
`dao.GetArtifact(Repository, Tag)`. -/
def ManifestInfo.fetchArtifact (getArtifact : String → String → Option Artifact × Option DBErr)
    (info : ManifestInfo) : (Option Artifact × Option DBErr) × ManifestInfo × Nat :=
  if info.artifactDone then ((info.artifact, info.artifactErr), info, 0)
  else
    let r := getArtifact info.Repository info.Tag
    (r, { info with artifact := r.1, artifactErr := r.2, artifactDone := true }, 1)

/-- Go `ManifestInfo.IsNewTag`: true when the memoized artifact lookup
returned no artifact (`artifact == nil`). -/
def ManifestInfo.IsNewTag (getArtifact : String → String → Option Artifact × Option DBErr)
    (info : ManifestInfo) : Bool × ManifestInfo × Nat :=
  let (r, info1, q) := info.fetchArtifact getArtifact
  (r.1.isNone, info1, q)

/-- Go `ManifestInfo.Artifact`: a fresh record carrying the identity
fields; when the memoized lookup found an artifact, its id and creation
time are reused and the push time is stamped with the current clock. -/
def ManifestInfo.Artifact (getArtifact : String → String → Option Harbor.Artifact × Option DBErr)
    (now : Nat) (info : ManifestInfo) : Harbor.Artifact × ManifestInfo × Nat :=
  let result : Harbor.Artifact :=
    { PID := info.ProjectID, Repo := info.Repository, Tag := info.Tag,
      Digest := info.Digest, Kind := "Docker-Image" }
  let (r, info1, q) := info.fetchArtifact getArtifact
  match r.1 with
  | some artifact =>
    ({ result with
        ID := artifact.ID
        CreationTime := artifact.CreationTime
        PushTime := now }, info1, q)
  | none => (result, info1, q)

/-- Go `ManifestInfo.ManifestExists`: `sync.Once`-guarded count query
`dao.GetTotalOfArtifacts{PID, Digest}`; the manifest exists iff the
total is positive. -/
def ManifestInfo.ManifestExists (getTotalOfArtifacts : Int → String → Int × Option DBErr)
    (info : ManifestInfo) : (Bool × Option DBErr) × ManifestInfo × Nat :=
  if info.manifestExistDone then ((info.manifestExist, info.manifestExistErr), info, 0)
  else
    let (total, err) := getTotalOfArtifacts info.ProjectID info.Digest
    ((decide (total > 0), err),
     { info with
        manifestExist := decide (total > 0)
        manifestExistErr := err
        manifestExistDone := true }, 1)

/-- Go `ManifestInfo.SyncBlobs`: upsert the referenced blobs through
`dao.SyncBlobs`; a `dao.ErrDupRows` outcome is logged and treated as
success, every other outcome is returned unchanged. -/
def ManifestInfo.SyncBlobs (daoSyncBlobs : List Harbor.Descriptor → Option DBErr)
    (info : ManifestInfo) : Option DBErr :=
  let err := daoSyncBlobs info.References
  if err = some DBErr.dupRows then none else err

/-- Go `ManifestInfo.GetBlobsNotInProject`: collect the reference
digests and query `dao.GetBlobsNotInProject(ProjectID, digests...)`. -/
def ManifestInfo.GetBlobsNotInProject
    (getBlobsNotInProject : Int → List String → Except DBErr (List Blob))
    (info : ManifestInfo) : Except DBErr (List Blob) :=
  let digests := info.References.map (·.Digest)
  getBlobsNotInProject info.ProjectID digests

/-- Iterate a memoized accessor: perform `n` sequential calls from a
state, collecting the per-call results and the total number of
backing-store queries issued. -/
def callN (call : σ → ρ × σ × Nat) : σ → Nat → List ρ × σ × Nat
  | s, 0 => ([], s, 0)
  | s, n + 1 =>
    let (r, s1, q) := call s
    let (rs, s2, qs) := callN call s1 n
    (r :: rs, s2, q + qs)

/-- Embedding of `schema1.MediaTypeManifest`. -/
def MediaTypeManifestV1 : String := "application/vnd.docker.distribution.manifest.v1+json"

/-- Embedding of `schema1.MediaTypeSignedManifest`. -/
def MediaTypeSignedManifestV1 : String :=
  "application/vnd.docker.distribution.manifest.v1+prettyjws"

/-- Embedding of `schema2.MediaTypeManifest`. -/
def MediaTypeManifestV2 : String := "application/vnd.docker.distribution.manifest.v2+json"

/-- Embedding of `ocispec.MediaTypeImageManifest`. -/
def MediaTypeOCIManifest : String := "application/vnd.oci.image.manifest.v1+json"

/-- Embedding of `ocispec.Manifest`, restricted to the `Layers` field, the only one
the parser reads. -/
structure OCIManifest where
  Layers : List Descriptor := []
deriving DecidableEq

/-- The error outcomes of the two manifest-info constructors. -/
inductive ParseErr where
  | notMatchURL (path : String)
  | unsupportedMediaType (mediaType : String)
  | bodyMissing
  | manifestDecode
  | descriptorDecode
  | projectLookup (name : String) (e : DBErr)
  | projectNotFound (name : String)
deriving DecidableEq

/-- Embedding of `ioutil.ReadAll(req.Body)` on an in-memory stream: return all the
remaining bytes and leave the stream exhausted. -/
def readAllBody (req : Request) (bs : List UInt8) : List UInt8 × Request :=
  (bs, { req with body := some [] })

/-- Embedding of `req.Body = ioutil.NopCloser(bytes.NewBuffer(body))`: replace the
body stream with a fresh buffer of the given bytes. -/
def restoreBody (req : Request) (bs : List UInt8) : Request :=
  { req with body := some bs }

/-- Go `ParseManifestInfoFromReq`.  The JSON decoders for the two
shapes (`ocispec.Manifest` and `ocispec.Descriptor`) and the project
lookup `dao.GetProjectByName` are oracle parameters (`none` models a
decode error; a `.ok none` lookup models a missing project).  The
result is paired with the request as left behind: the body is read with
`ReadAll` and restored from the captured bytes before each of the
decode steps, so every exit taken after the read leaves the original
bytes readable. -/
def ParseManifestInfoFromReq
    (decodeManifest : List UInt8 → Option OCIManifest)
    (decodeDescriptor : List UInt8 → Option Descriptor)
    (getProjectByName : String → Except DBErr (Option Project))
    (req : Request) : Except ParseErr ManifestInfo × Request :=
  match matchManifestURLChars req.path.data with
  | none => (.error (.notMatchURL req.path), req)
  | some (repoChars, refChars) =>
    let repository := String.mk repoChars
    let reference := String.mk refChars
    let tag := if digestValid reference then "" else reference
    let mediaType := req.contentType
    if mediaType ≠ MediaTypeManifestV1 ∧ mediaType ≠ MediaTypeSignedManifestV1 ∧
        mediaType ≠ MediaTypeManifestV2 ∧ mediaType ≠ MediaTypeOCIManifest then
      (.error (.unsupportedMediaType mediaType), req)
    else
      match req.body with
      | none => (.error .bodyMissing, req)
      | some bs =>
        let (body, req1) := readAllBody req bs
        let req2 := restoreBody req1 body
        match decodeManifest body with
        | none => (.error .manifestDecode, req2)
        | some manifest =>
          let (body2, req3) := readAllBody req2 body
          let req4 := restoreBody req3 body2
          match decodeDescriptor body2 with
          | none => (.error .descriptorDecode, req4)
          | some desc =>
            let projectName := parseRepositoryProject repository
            match getProjectByName projectName with
            | .error e => (.error (.projectLookup projectName e), req4)
            | .ok none => (.error (.projectNotFound projectName), req4)
            | .ok (some project) =>
              let references := manifest.Layers.map fun layer =>
                ({ MediaType := layer.MediaType, Size := layer.Size, Digest := layer.Digest,
                   URLs := layer.URLs, Annotations := layer.Annotations,
                   Platform := layer.Platform } : Descriptor)
              (.ok { ProjectID := project.ProjectID
                     Repository := repository
                     Tag := tag
                     Digest := desc.Digest
                     References := references
                     Descriptor :=
                       { MediaType := desc.MediaType, Size := desc.Size, Digest := desc.Digest,
                         URLs := desc.URLs, Annotations := desc.Annotations,
                         Platform := desc.Platform } }, req4)

/-- Go `ParseManifestInfoFromPath`: match the URL, resolve the project,
then fill exactly one of `Tag`/`Digest` depending on whether the
reference parses as a digest.  Only `req.URL.Path` is consulted; the
body and headers are never touched. -/
def ParseManifestInfoFromPath
    (getProjectByName : String → Except DBErr (Option Project))
    (req : Request) : Except ParseErr ManifestInfo :=
  match matchManifestURLChars req.path.data with
  | none => .error (.notMatchURL req.path)
  | some (repoChars, refChars) =>
    let repository := String.mk repoChars
    let reference := String.mk refChars
    let projectName := parseRepositoryProject repository
    match getProjectByName projectName with
    | .error e => .error (.projectLookup projectName e)
    | .ok none => .error (.projectNotFound projectName)
    | .ok (some project) =>
      if digestValid reference then
        .ok { ProjectID := project.ProjectID, Repository := repository, Digest := reference }
      else
        .ok { ProjectID := project.ProjectID, Repository := repository, Tag := reference }

/-- Go `PmsPolicyChecker.ContentTrustEnabled`: a failing project lookup
is logged and reported as content trust enabled (fail closed);
otherwise the flag of the project is returned.  The project manager is
an oracle parameter. -/
def PmsPolicyCheckerContentTrustEnabled
    (pmGet : String → Except DBErr Project) (name : String) : Bool :=
  match pmGet name with
  | .error _ => true
  | .ok project => project.contentTrust

/-- Go `PmsPolicyChecker.VulnerablePolicy`: a failing project lookup
yields `(true, SevUnknown, empty whitelist)` (fail closed); otherwise
the project flags are returned with the system or per-project CVE
whitelist, falling back to the empty whitelist when the whitelist
manager fails.  The project manager, the whitelist manager and the
clair severity translation are oracle parameters. -/
def PmsPolicyCheckerVulnerablePolicy
    (pmGet : String → Except DBErr Project)
    (mgrGetSys : Unit → Except DBErr CVEWhitelist)
    (mgrGet : Int → Except DBErr CVEWhitelist)
    (parseClairSev : String → Severity)
    (name : String) : Bool × Severity × CVEWhitelist :=
  match pmGet name with
  | .error _ => (true, Severity.sevUnknown, {})
  | .ok project =>
    if project.reuseSys then
      match mgrGetSys () with
      | .error _ => (project.vulPrevented, parseClairSev project.severityStr, {})
      | .ok w => (project.vulPrevented, parseClairSev project.severityStr, w)
    else
      match mgrGet project.ProjectID with
      | .error _ => (project.vulPrevented, parseClairSev project.severityStr, {})
      | .ok w => (project.vulPrevented, parseClairSev project.severityStr, w)

/-- The reference shape as claim C8 words it: 1 to 128 characters
drawn from word characters plus dot, colon and dash. -/
def claimRefB (r : List Char) : Bool :=
  decide (1 ≤ r.length) && decide (r.length ≤ 128) && r.all refCharB

/-- End-anchored tail of the claimed exact URL shape over the
slash-separated pieces: one or more repository segments, then the
literal `manifests`, then the reference as the final piece (the
reference character set contains no slash, so this decomposition is
forced). -/
def exactTailB : List (List Char) → Bool
  | [p, r] => (p == manifestsChars) && claimRefB r
  | p :: q :: rest => segOkB p && exactTailB (q :: rest)
  | _ => false

/-- The exact end-anchored URL shape `/v2/<repo-path>/manifests/<reference>`
written from the words of the spec and of claim C8. -/
def claimShapeB : List Char → Bool
  | '/' :: 'v' :: '2' :: '/' :: rest =>
    match splitSlash rest with
    | p :: ps => segOkB p && exactTailB ps
    | [] => false
  | _ => false

/-- Prefix-anchored URL shape: the path begins with
`/v2/<repo-path>/manifests/<c>` for a nonempty sequence of valid
repository segments and a word character `c`; the path may continue
arbitrarily after `c`.  This is the shape that `manifestURLRe`, which
carries a start anchor but no end anchor, actually accepts. -/
def SpecManifestURLStart (p : List Char) : Prop :=
  ∃ segs c rest, segs ≠ [] ∧ (∀ s ∈ segs, segOkB s = true) ∧ wordCharB c = true ∧
    p = "/v2/".data ++ (segs.map (· ++ ['/'])).flatten ++ manifestsChars ++ '/' :: c :: rest

/-- Display form of trailing key segments: each suffix segment is
appended behind a colon, in argument order. -/
def suffixJoin : List String → String
  | [] => ""
  | s :: rest => ":" ++ s ++ suffixJoin rest

theorem foldl_colon (s : List String) (acc : String) :
    List.foldl (fun acc x => acc ++ ":" ++ x) acc s = acc ++ suffixJoin s := by
  induction s generalizing acc with
  | nil => simp [suffixJoin]
  | cons x rest ih =>
    rw [List.foldl_cons, ih]
    simp [suffixJoin, String.append_assoc]

theorem stringsJoin_colon4 (a b c d : String) (s : List String) :
    stringsJoin ([a, b, c, d] ++ s) ":" =
      a ++ ":" ++ b ++ ":" ++ c ++ ":" ++ d ++ suffixJoin s := by
  show List.foldl _ a ([b, c, d] ++ s) = _
  rw [List.foldl_append]
  simp only [List.foldl_cons, List.foldl_nil]
  exact foldl_colon s _

theorem stringsJoin_colon6 (a b c d e f : String) (s : List String) :
    stringsJoin ([a, b, c, d, e, f] ++ s) ":" =
      a ++ ":" ++ b ++ ":" ++ c ++ ":" ++ d ++ ":" ++ e ++ ":" ++ f ++ suffixJoin s := by
  show List.foldl _ a ([b, c, d, e, f] ++ s) = _
  rw [List.foldl_append]
  simp only [List.foldl_cons, List.foldl_nil]
  exact foldl_colon s _

theorem manifestMutexKey_of_tag (m : ManifestInfo) (suffix : List String) (h : m.Tag ≠ "") :
    m.MutexKey suffix =
      "quota" ++ ":" ++ parseRepositoryProject m.Repository ++ ":" ++ "manifest" ++ ":" ++
        m.Tag ++ suffixJoin suffix := by
  simp only [ManifestInfo.MutexKey]
  rw [if_pos h]
  exact stringsJoin_colon4 _ _ _ _ _

theorem manifestMutexKey_of_digest (m : ManifestInfo) (suffix : List String) (h : m.Tag = "") :
    m.MutexKey suffix =
      "quota" ++ ":" ++ parseRepositoryProject m.Repository ++ ":" ++ "manifest" ++ ":" ++
        m.Digest ++ suffixJoin suffix := by
  simp only [ManifestInfo.MutexKey]
  rw [if_neg (by simp [h])]
  exact stringsJoin_colon4 _ _ _ _ _

/-- C1: for two `ManifestInfo` values with equal repository and equal
nonempty tag, `MutexKey` with the same suffix arguments is identical
regardless of the `Digest` fields; a nonempty tag yields the tag-based
key `quota:<project-name>:manifest:<tag>` and an empty tag yields the
digest-based key `quota:<project-name>:manifest:<digest>`, with the
suffix segments appended behind colons in argument order in both
cases. -/
theorem C1_manifest_mutex_key_determinism :
    ∀ (m1 m2 : ManifestInfo) (suffix : List String),
      (m1.Repository = m2.Repository → m1.Tag = m2.Tag → m1.Tag ≠ "" →
        m1.MutexKey suffix = m2.MutexKey suffix) ∧
      (m1.Tag ≠ "" →
        m1.MutexKey suffix =
          "quota" ++ ":" ++ parseRepositoryProject m1.Repository ++ ":" ++ "manifest" ++ ":" ++
            m1.Tag ++ suffixJoin suffix) ∧
      (m1.Tag = "" →
        m1.MutexKey suffix =
          "quota" ++ ":" ++ parseRepositoryProject m1.Repository ++ ":" ++ "manifest" ++ ":" ++
            m1.Digest ++ suffixJoin suffix) := by
  intro m1 m2 suffix
  refine ⟨?_, fun h => manifestMutexKey_of_tag m1 suffix h,
    fun h => manifestMutexKey_of_digest m1 suffix h⟩
  intro hrepo htag hne
  rw [manifestMutexKey_of_tag m1 suffix hne,
    manifestMutexKey_of_tag m2 suffix (htag ▸ hne), hrepo, htag]

/-- Closed witness for C1 at concrete manifest resolvers: repository
`p/r`, tag `v1`, two different digests give identical keys; clearing
the tag gives the digest-based key. -/
theorem C1_manifest_mutex_key_determinism_witness :
    ManifestInfo.MutexKey { Repository := "p/r", Tag := "v1", Digest := "sha256:aa" } ["s"] =
      ManifestInfo.MutexKey { Repository := "p/r", Tag := "v1", Digest := "sha256:bb" } ["s"] ∧
    ManifestInfo.MutexKey { Repository := "p/r", Tag := "", Digest := "sha256:aa" } ["s"] =
      "quota" ++ ":" ++ parseRepositoryProject "p/r" ++ ":" ++ "manifest" ++ ":" ++
        "sha256:aa" ++ suffixJoin ["s"] :=
  ⟨(C1_manifest_mutex_key_determinism
      { Repository := "p/r", Tag := "v1", Digest := "sha256:aa" }
      { Repository := "p/r", Tag := "v1", Digest := "sha256:bb" } ["s"]).1 rfl rfl (by decide),
   (C1_manifest_mutex_key_determinism
      { Repository := "p/r", Tag := "", Digest := "sha256:aa" }
      { Repository := "p/r", Tag := "", Digest := "sha256:aa" } ["s"]).2.2 rfl⟩

/-- C7: the blob key of `BlobInfo.MutexKey` and of
`ManifestInfo.BlobMutexKey` is `quota:<project-name>:blob:<digest>`
with the project name taken from the repository before its first
slash, and `ChartVersionInfo.MutexKey` is
`quota:<namespace>:chart:<chart-name>:version:<version>`; caller
suffix segments follow behind colons in argument order. -/
theorem C7_mutex_key_shapes :
    ∀ (b : BlobInfo) (m : ManifestInfo) (blob : Blob) (cv : ChartVersionInfo)
      (suffix : List String),
      b.MutexKey suffix =
        "quota" ++ ":" ++ parseRepositoryProject b.Repository ++ ":" ++ "blob" ++ ":" ++
          b.Digest ++ suffixJoin suffix ∧
      m.BlobMutexKey blob suffix =
        "quota" ++ ":" ++ parseRepositoryProject m.Repository ++ ":" ++ "blob" ++ ":" ++
          blob.Digest ++ suffixJoin suffix ∧
      cv.MutexKey suffix =
        "quota" ++ ":" ++ cv.Namespace ++ ":" ++ "chart" ++ ":" ++ cv.ChartName ++ ":" ++
          "version" ++ ":" ++ cv.Version ++ suffixJoin suffix := by
  intro b m blob cv suffix
  exact ⟨stringsJoin_colon4 _ _ _ _ _, stringsJoin_colon4 _ _ _ _ _,
    stringsJoin_colon6 _ _ _ _ _ _ _⟩

/-- C6: `SyncBlobs` converts the duplicate-row outcome of the backing
upsert into success and forwards every other outcome unchanged. -/
theorem C6_syncBlobs_duplicate_rows :
    ∀ (daoSyncBlobs : List Descriptor → Option DBErr) (info : ManifestInfo),
      (daoSyncBlobs info.References = some DBErr.dupRows →
        info.SyncBlobs daoSyncBlobs = none) ∧
      (∀ e : DBErr, e ≠ DBErr.dupRows → daoSyncBlobs info.References = some e →
        info.SyncBlobs daoSyncBlobs = some e) ∧
      (daoSyncBlobs info.References = none → info.SyncBlobs daoSyncBlobs = none) := by
  intro daoSyncBlobs info
  refine ⟨fun h => ?_, fun e he h => ?_, fun h => ?_⟩
  · simp [ManifestInfo.SyncBlobs, h]
  · simp [ManifestInfo.SyncBlobs, h, he]
  · simp [ManifestInfo.SyncBlobs, h]

/-- Closed witness for C6 at concrete backing outcomes. -/
theorem C6_syncBlobs_duplicate_rows_witness :
    ManifestInfo.SyncBlobs (fun _ => some DBErr.dupRows) {} = none ∧
    ManifestInfo.SyncBlobs (fun _ => some (DBErr.failure "disk full")) {} =
      some (DBErr.failure "disk full") ∧
    ManifestInfo.SyncBlobs (fun _ => none) {} = none :=
  ⟨(C6_syncBlobs_duplicate_rows (fun _ => some DBErr.dupRows) {}).1 rfl,
   (C6_syncBlobs_duplicate_rows (fun _ => some (DBErr.failure "disk full")) {}).2.1
     (DBErr.failure "disk full") (by decide) rfl,
   (C6_syncBlobs_duplicate_rows (fun _ => none) {}).2.2 rfl⟩

/-- C10: when the project lookup through the project manager fails,
`PmsPolicyChecker` fails closed: `ContentTrustEnabled` is `true` and
`VulnerablePolicy` is `(true, SevUnknown, empty whitelist)`. -/
theorem C10_policy_checker_fails_closed :
    ∀ (pmGet : String → Except DBErr Project)
      (mgrGetSys : Unit → Except DBErr CVEWhitelist)
      (mgrGet : Int → Except DBErr CVEWhitelist)
      (parseClairSev : String → Severity)
      (name : String) (e : DBErr),
      pmGet name = .error e →
      PmsPolicyCheckerContentTrustEnabled pmGet name = true ∧
      PmsPolicyCheckerVulnerablePolicy pmGet mgrGetSys mgrGet parseClairSev name =
        (true, Severity.sevUnknown, ({} : CVEWhitelist)) := by
  intro pmGet mgrGetSys mgrGet parseClairSev name e h
  constructor
  · simp [PmsPolicyCheckerContentTrustEnabled, h]
  · simp [PmsPolicyCheckerVulnerablePolicy, h]

theorem callN_stable {σ ρ : Type} (call : σ → ρ × σ × Nat) (s : σ) (r : ρ)
    (h : call s = (r, s, 0)) : ∀ n, callN call s n = (List.replicate n r, s, 0) := by
  intro n
  induction n with
  | zero => simp [callN]
  | succ k ih => simp [callN, h, ih, List.replicate_succ]

theorem callN_once {σ ρ : Type} (call : σ → ρ × σ × Nat) (s s1 : σ) (r : ρ)
    (h1 : call s = (r, s1, 1)) (h2 : call s1 = (r, s1, 0)) :
    ∀ n, callN call s (n + 1) = (List.replicate (n + 1) r, s1, 1) := by
  intro n
  simp [callN, h1, callN_stable call s1 r h2 n, List.replicate_succ]

theorem blobExists_fresh (store : Int → String → Bool × Option DBErr) (b : BlobInfo)
    (h : b.blobExistDone = false) :
    b.BlobExists store =
      (store b.ProjectID b.Digest,
       { b with blobExist := (store b.ProjectID b.Digest).1
                blobExistErr := (store b.ProjectID b.Digest).2
                blobExistDone := true }, 1) := by
  simp [BlobInfo.BlobExists, h]

theorem blobExists_cached (store : Int → String → Bool × Option DBErr) (b : BlobInfo)
    (r : Bool × Option DBErr)
    (h : b.blobExistDone = true) (h1 : b.blobExist = r.1) (h2 : b.blobExistErr = r.2) :
    b.BlobExists store = (r, b, 0) := by
  simp [BlobInfo.BlobExists, h, h1, h2]

theorem manifestExists_fresh (store : Int → String → Int × Option DBErr) (m : ManifestInfo)
    (h : m.manifestExistDone = false) :
    m.ManifestExists store =
      ((decide ((store m.ProjectID m.Digest).1 > 0), (store m.ProjectID m.Digest).2),
       { m with manifestExist := decide ((store m.ProjectID m.Digest).1 > 0)
                manifestExistErr := (store m.ProjectID m.Digest).2
                manifestExistDone := true }, 1) := by
  simp [ManifestInfo.ManifestExists, h]

theorem manifestExists_cached (store : Int → String → Int × Option DBErr) (m : ManifestInfo)
    (r : Bool × Option DBErr)
    (h : m.manifestExistDone = true) (h1 : m.manifestExist = r.1)
    (h2 : m.manifestExistErr = r.2) :
    m.ManifestExists store = (r, m, 0) := by
  simp [ManifestInfo.ManifestExists, h, h1, h2]

theorem fetchArtifact_fresh (store : String → String → Option Artifact × Option DBErr)
    (m : ManifestInfo) (h : m.artifactDone = false) :
    m.fetchArtifact store =
      (store m.Repository m.Tag,
       { m with artifact := (store m.Repository m.Tag).1
                artifactErr := (store m.Repository m.Tag).2
                artifactDone := true }, 1) := by
  simp [ManifestInfo.fetchArtifact, h]

theorem fetchArtifact_cached (store : String → String → Option Artifact × Option DBErr)
    (m : ManifestInfo) (r : Option Artifact × Option DBErr)
    (h : m.artifactDone = true) (h1 : m.artifact = r.1) (h2 : m.artifactErr = r.2) :
    m.fetchArtifact store = (r, m, 0) := by
  simp [ManifestInfo.fetchArtifact, h, h1, h2]

/-- C2: each memoized accessor — blob existence, manifest existence and
the artifact lookup behind `IsNewTag` — issues exactly one backing-store
query over any positive number of sequential calls on one fresh object,
and every call observes the identical result-and-error pair produced by
that single query. -/
theorem C2_memoized_single_query :
    ∀ (hasBlobInProject : Int → String → Bool × Option DBErr) (b : BlobInfo)
      (getTotalOfArtifacts : Int → String → Int × Option DBErr) (m : ManifestInfo)
      (getArtifact : String → String → Option Artifact × Option DBErr) (a : ManifestInfo)
      (n : Nat),
      (b.blobExistDone = false → ∃ b1,
        callN (BlobInfo.BlobExists hasBlobInProject) b (n + 1) =
          (List.replicate (n + 1) (hasBlobInProject b.ProjectID b.Digest), b1, 1)) ∧
      (m.manifestExistDone = false → ∃ m1,
        callN (ManifestInfo.ManifestExists getTotalOfArtifacts) m (n + 1) =
          (List.replicate (n + 1)
            (decide ((getTotalOfArtifacts m.ProjectID m.Digest).1 > 0),
             (getTotalOfArtifacts m.ProjectID m.Digest).2), m1, 1)) ∧
      (a.artifactDone = false → ∃ a1,
        callN (ManifestInfo.fetchArtifact getArtifact) a (n + 1) =
          (List.replicate (n + 1) (getArtifact a.Repository a.Tag), a1, 1)) ∧
      (a.artifactDone = false → ∃ a2,
        callN (ManifestInfo.IsNewTag getArtifact) a (n + 1) =
          (List.replicate (n + 1) (getArtifact a.Repository a.Tag).1.isNone, a2, 1)) := by
  intro hasBlob b getTotal m getArt a n
  refine ⟨fun hb => ?_, fun hm => ?_, fun ha => ?_, fun ha => ?_⟩
  · refine ⟨_, callN_once _ b _ _ (blobExists_fresh hasBlob b hb) ?_ n⟩
    exact blobExists_cached hasBlob _ _ rfl rfl rfl
  · refine ⟨_, callN_once _ m _ _ (manifestExists_fresh getTotal m hm) ?_ n⟩
    exact manifestExists_cached getTotal _ _ rfl rfl rfl
  · refine ⟨_, callN_once _ a _ _ (fetchArtifact_fresh getArt a ha) ?_ n⟩
    exact fetchArtifact_cached getArt _ _ rfl rfl rfl
  · refine ⟨_, callN_once (ManifestInfo.IsNewTag getArt) a
      { a with artifact := (getArt a.Repository a.Tag).1
               artifactErr := (getArt a.Repository a.Tag).2
               artifactDone := true }
      (getArt a.Repository a.Tag).1.isNone ?_ ?_ n⟩
    · simp [ManifestInfo.IsNewTag, fetchArtifact_fresh getArt a ha]
    · simp [ManifestInfo.IsNewTag, ManifestInfo.fetchArtifact]

/-- Closed witness for C2: three sequential calls on fresh objects give
one backing query and three identical results. -/
theorem C2_memoized_single_query_witness :
    (∃ b1, callN (BlobInfo.BlobExists fun _ _ => (true, none)) ({} : BlobInfo) 3 =
      (List.replicate 3 (true, none), b1, 1)) ∧
    (∃ m1, callN (ManifestInfo.ManifestExists fun _ _ => (2, none)) ({} : ManifestInfo) 3 =
      (List.replicate 3 (true, none), m1, 1)) ∧
    (∃ a1, callN (ManifestInfo.fetchArtifact fun _ _ => (none, none)) ({} : ManifestInfo) 3 =
      (List.replicate 3 (none, none), a1, 1)) ∧
    (∃ a2, callN (ManifestInfo.IsNewTag fun _ _ => (none, none)) ({} : ManifestInfo) 3 =
      (List.replicate 3 true, a2, 1)) := by
  have h := C2_memoized_single_query (fun _ _ => (true, none)) {} (fun _ _ => (2, none)) {}
    (fun _ _ => (none, none)) {} 2
  exact ⟨h.1 rfl, h.2.1 rfl, h.2.2.1 rfl, h.2.2.2 rfl⟩

/-- C5: on every exit taken after the request body has been read —
success, OCI-manifest decode failure, descriptor decode failure,
project-lookup failure or project not found — `ParseManifestInfoFromReq`
leaves the request with a body stream holding exactly the original
bytes. -/
theorem C5_body_restored :
    ∀ (decodeManifest : List UInt8 → Option OCIManifest)
      (decodeDescriptor : List UInt8 → Option Descriptor)
      (getProjectByName : String → Except DBErr (Option Project))
      (req : Request) (bs : List UInt8),
      req.body = some bs →
      (matchManifestURLChars req.path.data).isSome →
      (req.contentType = MediaTypeManifestV1 ∨ req.contentType = MediaTypeSignedManifestV1 ∨
       req.contentType = MediaTypeManifestV2 ∨ req.contentType = MediaTypeOCIManifest) →
      (ParseManifestInfoFromReq decodeManifest decodeDescriptor getProjectByName req).2.body =
        some bs := by
  intro dm dd gp req bs hbody hmatch hmedia
  have hmt : ¬(req.contentType ≠ MediaTypeManifestV1 ∧
      req.contentType ≠ MediaTypeSignedManifestV1 ∧
      req.contentType ≠ MediaTypeManifestV2 ∧ req.contentType ≠ MediaTypeOCIManifest) := by
    rcases hmedia with h | h | h | h <;> simp [h]
  cases hm : matchManifestURLChars req.path.data with
  | none => rw [hm] at hmatch; exact absurd hmatch (by simp)
  | some pr =>
    obtain ⟨repoChars, refChars⟩ := pr
    unfold ParseManifestInfoFromReq
    simp only [hm, if_neg hmt, hbody, readAllBody, restoreBody]
    cases hdm : dm bs with
    | none => simp [hdm]
    | some manifest =>
      cases hdd : dd bs with
      | none => simp [hdm, hdd]
      | some desc =>
        cases hgp : gp (parseRepositoryProject (String.mk repoChars)) with
        | error e => simp [hdm, hdd, hgp]
        | ok po =>
          cases po with
          | none => simp [hdm, hdd, hgp]
          | some project => simp [hdm, hdd, hgp]

/-- Closed witness for C5: a PUT of an OCI manifest whose body fails to
decode still leaves the two original bytes readable. -/
theorem C5_body_restored_witness :
    (ParseManifestInfoFromReq (fun _ => none) (fun _ => none) (fun _ => .ok none)
      { method := "PUT", path := "/v2/p/r/manifests/latest",
        contentType := "application/vnd.oci.image.manifest.v1+json",
        body := some [1, 2] }).2.body = some [1, 2] :=
  C5_body_restored (fun _ => none) (fun _ => none) (fun _ => .ok none)
    { method := "PUT", path := "/v2/p/r/manifests/latest",
      contentType := "application/vnd.oci.image.manifest.v1+json", body := some [1, 2] }
    [1, 2] rfl (by decide) (by decide)

theorem matchURL_path_ab_latest (req : Request)
    (h : req.path = "/v2/a/b/manifests/latest") :
    MatchManifestURL req = (true, "a/b", "latest") := by
  unfold MatchManifestURL
  rw [h]
  decide

theorem matchURL_path_ab_digest (req : Request)
    (h : req.path =
      "/v2/a/b/manifests/sha256:0123456789abcdef0123456789abcdef0123456789abcdef0123456789abcdef") :
    MatchManifestURL req = (true, "a/b",
      "sha256:0123456789abcdef0123456789abcdef0123456789abcdef0123456789abcdef") := by
  unfold MatchManifestURL
  rw [h]
  decide

/-- C3: on path /v2/a/b/manifests/latest, GET matches pull with
repository a/b and reference latest, PUT matches push, DELETE does not
match delete because latest is a tag, and every other method is
rejected by each matcher; a DELETE of the same repository with a digest
reference matches delete. -/
theorem C3_pull_push_delete_matchers :
    (∀ req : Request, req.path = "/v2/a/b/manifests/latest" →
      (req.method = "GET" → MatchPullManifest req = (true, "a/b", "latest")) ∧
      (req.method ≠ "GET" → MatchPullManifest req = (false, "", "")) ∧
      (req.method = "PUT" → MatchPushManifest req = (true, "a/b", "latest")) ∧
      (req.method ≠ "PUT" → MatchPushManifest req = (false, "", "")) ∧
      (req.method = "DELETE" → (MatchDeleteManifest req).1 = false) ∧
      (req.method ≠ "DELETE" → MatchDeleteManifest req = (false, "", ""))) ∧
    (∀ req : Request,
      req.path =
        "/v2/a/b/manifests/sha256:0123456789abcdef0123456789abcdef0123456789abcdef0123456789abcdef" →
      req.method = "DELETE" →
      MatchDeleteManifest req = (true, "a/b",
        "sha256:0123456789abcdef0123456789abcdef0123456789abcdef0123456789abcdef")) := by
  constructor
  · intro req hpath
    have hurl := matchURL_path_ab_latest req hpath
    have hdg : digestValid "latest" = false := by decide
    refine ⟨fun h => ?_, fun h => ?_, fun h => ?_, fun h => ?_, fun h => ?_, fun h => ?_⟩
    · simp [MatchPullManifest, h, hurl]
    · simp [MatchPullManifest, h]
    · simp [MatchPushManifest, h, hurl]
    · simp [MatchPushManifest, h]
    · simp [MatchDeleteManifest, h, hurl, hdg]
    · simp [MatchDeleteManifest, h]
  · intro req hpath h
    have hurl := matchURL_path_ab_digest req hpath
    have hdg : digestValid
        "sha256:0123456789abcdef0123456789abcdef0123456789abcdef0123456789abcdef" = true := by
      decide
    simp [MatchDeleteManifest, h, hurl, hdg]

/-- Closed witness for C3 at concrete requests. -/
theorem C3_pull_push_delete_matchers_witness :
    MatchPullManifest { method := "GET", path := "/v2/a/b/manifests/latest" } =
      (true, "a/b", "latest") ∧
    (MatchDeleteManifest { method := "DELETE", path := "/v2/a/b/manifests/latest" }).1 =
      false ∧
    MatchDeleteManifest { method := "DELETE", path := "/v2/a/b/manifests/sha256:0123456789abcdef0123456789abcdef0123456789abcdef0123456789abcdef" } =
      (true, "a/b",
        "sha256:0123456789abcdef0123456789abcdef0123456789abcdef0123456789abcdef") :=
  ⟨(C3_pull_push_delete_matchers.1 { method := "GET", path := "/v2/a/b/manifests/latest" }
      rfl).1 rfl,
   (C3_pull_push_delete_matchers.1 { method := "DELETE", path := "/v2/a/b/manifests/latest" }
      rfl).2.2.2.2.1 rfl,
   C3_pull_push_delete_matchers.2 { method := "DELETE", path := "/v2/a/b/manifests/sha256:0123456789abcdef0123456789abcdef0123456789abcdef0123456789abcdef" }
      rfl rfl⟩

/-- Counterexample to C4 as stated: a DELETE whose URL matches but
whose reference is a tag returns the match flag false together with
the matched repository and reference strings, not empty strings. -/
theorem C4_counterexample_delete_keeps_strings :
    MatchDeleteManifest { method := "DELETE", path := "/v2/a/b/manifests/latest" } =
      (false, "a/b", "latest") := by decide

/-- C4 (amended): on non-matching input the matchers return false with
empty repository and reference strings — including a DELETE whose path
does not match the pattern — except that a DELETE whose URL matches but
whose reference is not a digest returns false together with the
already-matched repository and reference values; no case produces an
error. -/
theorem C4_nonmatch_outputs :
    ∀ req : Request,
      ((MatchManifestURL req).1 = false → MatchManifestURL req = (false, "", "")) ∧
      ((MatchPullManifest req).1 = false → MatchPullManifest req = (false, "", "")) ∧
      ((MatchPushManifest req).1 = false → MatchPushManifest req = (false, "", "")) ∧
      (req.method ≠ "DELETE" → MatchDeleteManifest req = (false, "", "")) ∧
      (req.method = "DELETE" → (MatchManifestURL req).1 = false →
        MatchDeleteManifest req = (false, "", "")) ∧
      (∀ r f, req.method = "DELETE" → MatchManifestURL req = (true, r, f) →
        digestValid f = false → MatchDeleteManifest req = (false, r, f)) := by
  intro req
  have hu : (MatchManifestURL req).1 = false → MatchManifestURL req = (false, "", "") := by
    unfold MatchManifestURL
    cases matchManifestURLChars req.path.data with
    | none => simp
    | some pr => obtain ⟨a, b⟩ := pr; simp
  refine ⟨hu, ?_, ?_, fun h => by simp [MatchDeleteManifest, h], ?_, ?_⟩
  · by_cases h : req.method = "GET"
    · simpa [MatchPullManifest, h] using hu
    · simp [MatchPullManifest, h]
  · by_cases h : req.method = "PUT"
    · simpa [MatchPushManifest, h] using hu
    · simp [MatchPushManifest, h]
  · intro hmd hflag
    have hempty := hu hflag
    have hdg : digestValid "" = false := by decide
    simp [MatchDeleteManifest, hmd, hempty, hdg]
  · intro r f hmd hml hdg
    simp [MatchDeleteManifest, hmd, hml, hdg]

/-- Closed witness for C4 at concrete requests: a wrong-method pull, a
DELETE on a non-matching path, and a DELETE on a matching path with a
tag reference. -/
theorem C4_nonmatch_outputs_witness :
    MatchPullManifest { method := "POST", path := "/v2/a/b/manifests/latest" } =
      (false, "", "") ∧
    MatchDeleteManifest { method := "DELETE", path := "/x" } = (false, "", "") ∧
    MatchDeleteManifest { method := "DELETE", path := "/v2/a/b/manifests/latest" } =
      (false, "a/b", "latest") :=
  ⟨(C4_nonmatch_outputs { method := "POST", path := "/v2/a/b/manifests/latest" }).2.1
      (by decide),
   (C4_nonmatch_outputs { method := "DELETE", path := "/x" }).2.2.2.2.1 rfl (by decide),
   (C4_nonmatch_outputs { method := "DELETE", path := "/v2/a/b/manifests/latest" }).2.2.2.2.2
      "a/b" "latest" rfl (by decide) (by decide)⟩

/-- Closed witness for C10 at a concretely failing project manager. -/
theorem C10_policy_checker_fails_closed_witness :
    PmsPolicyCheckerContentTrustEnabled (fun _ => .error (DBErr.failure "down")) "p" = true ∧
    PmsPolicyCheckerVulnerablePolicy (fun _ => .error (DBErr.failure "down"))
      (fun _ => .ok {}) (fun _ => .ok {}) (fun _ => Severity.sevHigh) "p" =
      (true, Severity.sevUnknown, ({} : CVEWhitelist)) :=
  C10_policy_checker_fails_closed (fun _ => .error (DBErr.failure "down"))
    (fun _ => .ok {}) (fun _ => .ok {}) (fun _ => Severity.sevHigh) "p"
    (DBErr.failure "down") rfl

theorem splitSlash_ne_nil (l : List Char) : splitSlash l ≠ [] := by
  cases l with
  | nil => simp [splitSlash]
  | cons c rest =>
    simp only [splitSlash]
    split
    · simp
    · split <;> simp

theorem joinSlash_cons_of_ne (a : List Char) (L : List (List Char)) (h : L ≠ []) :
    joinSlash (a :: L) = a ++ '/' :: joinSlash L := by
  cases L with
  | nil => exact absurd rfl h
  | cons b bs => rfl

theorem joinSlash_splitSlash (l : List Char) : joinSlash (splitSlash l) = l := by
  induction l with
  | nil => simp [splitSlash, joinSlash]
  | cons c rest ih =>
    by_cases hc : c = '/'
    · subst hc
      show joinSlash ([] :: splitSlash rest) = '/' :: rest
      rw [joinSlash_cons_of_ne [] (splitSlash rest) (splitSlash_ne_nil rest), ih]
      rfl
    · simp only [splitSlash, if_neg hc]
      cases hs : splitSlash rest with
      | nil => exact absurd hs (splitSlash_ne_nil rest)
      | cons p ps =>
        rw [hs] at ih
        cases ps with
        | nil =>
          simp only [joinSlash] at ih ⊢
          rw [ih]
        | cons q ps2 =>
          simp only [joinSlash] at ih ⊢
          rw [List.cons_append, ih]

theorem splitSlash_append (a b : List Char) (h : ∀ c ∈ a, c ≠ '/') :
    splitSlash (a ++ '/' :: b) = a :: splitSlash b := by
  induction a with
  | nil => simp [splitSlash]
  | cons c a2 ih =>
    have hc : c ≠ '/' := h c (by simp)
    simp only [List.cons_append, splitSlash, if_neg hc, List.append_eq]
    rw [ih (fun x hx => h x (by simp [hx]))]

theorem splitSlash_cons_ne (c : Char) (rest : List Char) (hc : c ≠ '/') :
    ∃ p ps, splitSlash (c :: rest) = (c :: p) :: ps := by
  simp only [splitSlash, if_neg hc]
  cases hs : splitSlash rest with
  | nil => exact absurd hs (splitSlash_ne_nil rest)
  | cons p ps => exact ⟨p, ps, rfl⟩

theorem segOkAux_chars : ∀ (l : List Char) (b : Bool), segOkAux l b = true →
    ∀ c ∈ l, isLowerAlnum c = true ∨ isSepChar c = true := by
  intro l
  induction l with
  | nil => intro b _ c hc; simp at hc
  | cons x rest ih =>
    intro b h c hc
    simp only [segOkAux] at h
    by_cases hx : isLowerAlnum x = true
    · rw [if_pos hx] at h
      rcases List.mem_cons.mp hc with rfl | hc2
      · exact Or.inl hx
      · exact ih true h c hc2
    · rw [if_neg hx] at h
      by_cases hs : (isSepChar x && b) = true
      · rw [if_pos hs] at h
        rcases List.mem_cons.mp hc with rfl | hc2
        · rw [Bool.and_eq_true] at hs
          exact Or.inr hs.1
        · exact ih false h c hc2
      · rw [if_neg hs] at h
        exact absurd h (by simp)

theorem segOk_ne_slash (s : List Char) (h : segOkB s = true) : ∀ c ∈ s, c ≠ '/' := by
  intro c hc he
  subst he
  rcases segOkAux_chars s false h '/' hc with h1 | h1
  · exact absurd h1 (by decide)
  · exact absurd h1 (by decide)

theorem wordChar_ne_slash (c : Char) (h : wordCharB c = true) : c ≠ '/' := by
  intro he
  subst he
  exact absurd h (by decide)

theorem joinSlash_append (A : List (List Char)) (b : List Char) (bs : List (List Char)) :
    joinSlash (A ++ b :: bs) = (A.map (· ++ ['/'])).flatten ++ joinSlash (b :: bs) := by
  induction A with
  | nil => simp
  | cons a A2 ih =>
    rw [List.cons_append,
      joinSlash_cons_of_ne a (A2 ++ b :: bs) (by simp), ih]
    simp [List.append_assoc]

theorem joinSlash_cons_cons (c : Char) (cs : List Char) (rs : List (List Char)) :
    joinSlash ((c :: cs) :: rs) = c :: joinSlash (cs :: rs) := by
  cases rs with
  | nil => rfl
  | cons r rs2 => simp [joinSlash]

theorem tryLit_eq_some (qs : List (List Char)) (ref : List Char)
    (h : tryLit qs = some ref) :
    ∃ c cs rs, qs = manifestsChars :: (c :: cs) :: rs ∧ wordCharB c = true ∧
      ref = c :: (cs.takeWhile refCharB).take 127 := by
  match qs with
  | [] => simp [tryLit] at h
  | [p] => simp [tryLit] at h
  | p :: [] :: rs => simp [tryLit] at h
  | p :: (c :: cs) :: rs =>
    simp only [tryLit] at h
    by_cases hp : p = manifestsChars
    · rw [if_pos hp] at h
      by_cases hw : wordCharB c = true
      · rw [if_pos hw] at h
        exact ⟨c, cs, rs, by rw [hp], hw, (Option.some.inj h).symm⟩
      · rw [if_neg hw] at h
        cases h
    · rw [if_neg hp] at h
      cases h

theorem tryLit_manifests (c : Char) (cs : List Char) (rs : List (List Char))
    (hw : wordCharB c = true) :
    tryLit (manifestsChars :: (c :: cs) :: rs) =
      some (c :: (cs.takeWhile refCharB).take 127) := by
  simp [tryLit, hw]

theorem matchPieces_cons_eq (p q : List Char) (rest : List (List Char)) :
    matchPieces (p :: q :: rest) =
      if segOkB p then
        match matchPieces (q :: rest) with
        | some (segs, ref) => some (p :: segs, ref)
        | none => (tryLit (p :: q :: rest)).map fun r => ([], r)
      else (tryLit (p :: q :: rest)).map fun r => ([], r) := rfl

theorem matchPieces_isSome_of_tryLit (ps : List (List Char))
    (h : (tryLit ps).isSome) : (matchPieces ps).isSome := by
  match ps with
  | [] => simp [tryLit] at h
  | [p] => simpa [matchPieces] using h
  | p :: q :: rest =>
    simp only [matchPieces]
    by_cases hs : segOkB p = true
    · rw [if_pos hs]
      cases hm : matchPieces (q :: rest) with
      | some pr => simp
      | none => simpa using h
    · rw [if_neg hs]
      simpa using h

theorem matchPieces_sound : ∀ (ps segs : List (List Char)) (ref : List Char),
    matchPieces ps = some (segs, ref) →
    (∀ s ∈ segs, segOkB s = true) ∧ ∃ qs, ps = segs ++ qs ∧ tryLit qs = some ref := by
  intro ps
  induction ps with
  | nil => intro segs ref h; simp [matchPieces] at h
  | cons p ps2 ih =>
    intro segs ref h
    cases ps2 with
    | nil => simp [matchPieces, tryLit] at h
    | cons q rest =>
      simp only [matchPieces] at h
      by_cases hs : segOkB p = true
      · rw [if_pos hs] at h
        cases hm : matchPieces (q :: rest) with
        | some pr =>
          rw [hm] at h
          obtain ⟨segs2, ref2⟩ := pr
          simp only [Option.some.injEq, Prod.mk.injEq] at h
          obtain ⟨h1, h2⟩ := h
          subst h1; subst h2
          obtain ⟨hall, qs, hqs, ht⟩ := ih segs2 ref2 hm
          refine ⟨?_, qs, by simp [hqs], ht⟩
          intro s hsmem
          rcases List.mem_cons.mp hsmem with rfl | hmem
          · exact hs
          · exact hall s hmem
        | none =>
          rw [hm] at h
          cases htl : tryLit (p :: q :: rest) with
          | none => rw [htl] at h; cases h
          | some r0 =>
            rw [htl] at h
            simp only [Option.map_some', Option.some.injEq, Prod.mk.injEq] at h
            obtain ⟨h1, h2⟩ := h
            subst h1; subst h2
            exact ⟨by simp, p :: q :: rest, rfl, htl⟩
      · rw [if_neg hs] at h
        cases htl : tryLit (p :: q :: rest) with
        | none => rw [htl] at h; cases h
        | some r0 =>
          rw [htl] at h
          simp only [Option.map_some', Option.some.injEq, Prod.mk.injEq] at h
          obtain ⟨h1, h2⟩ := h
          subst h1; subst h2
          exact ⟨by simp, p :: q :: rest, rfl, htl⟩

theorem matchPieces_complete : ∀ (segs : List (List Char)) (s : List Char)
    (qs : List (List Char)),
    segOkB s = true → (∀ x ∈ segs, segOkB x = true) → (tryLit qs).isSome →
    ∃ a as ref, matchPieces (s :: (segs ++ qs)) = some (a :: as, ref) := by
  intro segs
  induction segs with
  | nil =>
    intro s qs hs hall ht
    obtain ⟨r0, hr0⟩ := Option.isSome_iff_exists.mp ht
    obtain ⟨c, cs, rs, rfl, hw, rfl⟩ := tryLit_eq_some qs r0 hr0
    have hrec : (matchPieces (manifestsChars :: (c :: cs) :: rs)).isSome :=
      matchPieces_isSome_of_tryLit _ (by simp [hr0])
    cases hm : matchPieces (manifestsChars :: (c :: cs) :: rs) with
    | none => rw [hm] at hrec; simp at hrec
    | some pr =>
      obtain ⟨segs2, ref2⟩ := pr
      refine ⟨s, segs2, ref2, ?_⟩
      rw [List.nil_append, matchPieces_cons_eq, if_pos hs, hm]
  | cons s2 segs3 ih =>
    intro s qs hs hall ht
    obtain ⟨a, as, ref, hm⟩ := ih s2 qs (hall s2 (by simp))
      (fun x hx => hall x (by simp [hx])) ht
    refine ⟨s, a :: as, ref, ?_⟩
    rw [List.cons_append, matchPieces_cons_eq, if_pos hs, hm]

theorem splitSlash_flatten : ∀ (segs : List (List Char)) (b : List Char),
    (∀ s ∈ segs, segOkB s = true) →
    splitSlash ((segs.map (· ++ ['/'])).flatten ++ b) = segs ++ splitSlash b := by
  intro segs
  induction segs with
  | nil => intro b _; simp
  | cons s segs2 ih =>
    intro b hall
    have hsh : (((s :: segs2).map (· ++ ['/'])).flatten ++ b) =
        s ++ '/' :: ((segs2.map (· ++ ['/'])).flatten ++ b) := by
      simp [List.append_assoc]
    rw [hsh, splitSlash_append s _ (segOk_ne_slash s (hall s (by simp)))]
    rw [ih b (fun x hx => hall x (by simp [hx]))]
    rfl

theorem matchChars_sound (p repo ref : List Char)
    (h : matchManifestURLChars p = some (repo, ref)) :
    SpecManifestURLStart p ∧ ref ≠ [] := by
  match p with
  | [] => simp [matchManifestURLChars] at h
  | [a] => simp [matchManifestURLChars] at h
  | [a, b] => simp [matchManifestURLChars] at h
  | [a, b, c] => simp [matchManifestURLChars] at h
  | a :: b :: c :: d :: rest =>
    simp only [matchManifestURLChars] at h
    by_cases hv : a = '/' ∧ b = 'v' ∧ c = '2' ∧ d = '/'
    · rw [if_pos hv] at h
      obtain ⟨rfl, rfl, rfl, rfl⟩ := hv
      cases hm : matchPieces (splitSlash rest) with
      | none => rw [hm] at h; cases h
      | some pr =>
        obtain ⟨segs0, ref0⟩ := pr
        cases segs0 with
        | nil => rw [hm] at h; simp at h
        | cons s segs =>
          rw [hm] at h
          simp only [Option.some.injEq, Prod.mk.injEq] at h
          obtain ⟨hrepo, href⟩ := h
          obtain ⟨hall, qs, hps, htl⟩ := matchPieces_sound _ _ _ hm
          obtain ⟨c0, cs, rs, hqs, hw, hrefeq⟩ := tryLit_eq_some qs ref0 htl
          subst hqs
          constructor
          · refine ⟨s :: segs, c0, joinSlash (cs :: rs), by simp, hall, hw, ?_⟩
            have h1 : rest = joinSlash (splitSlash rest) := (joinSlash_splitSlash rest).symm
            rw [hps, joinSlash_append, joinSlash_cons_of_ne _ _ (by simp),
              joinSlash_cons_cons] at h1
            rw [h1]
            have hv2 : "/v2/".data = ['/', 'v', '2', '/'] := rfl
            rw [hv2]
            simp [List.append_assoc]
          · rw [← href, hrefeq]
            simp
    · rw [if_neg hv] at h
      cases h

theorem matchChars_complete (p : List Char) (h : SpecManifestURLStart p) :
    (matchManifestURLChars p).isSome := by
  obtain ⟨segs, c, rest2, hne, hall, hw, hp⟩ := h
  subst hp
  have hv2 : "/v2/".data = ['/', 'v', '2', '/'] := rfl
  rw [hv2]
  simp only [List.append_assoc, List.cons_append, List.nil_append]
  simp only [matchManifestURLChars]
  rw [if_pos (by simp)]
  rw [splitSlash_flatten segs _ hall]
  rw [splitSlash_append manifestsChars _ (by decide)]
  obtain ⟨p0, ps0, hsp⟩ := splitSlash_cons_ne c rest2 (wordChar_ne_slash c hw)
  rw [hsp]
  cases segs with
  | nil => exact absurd rfl hne
  | cons s segs2 =>
    obtain ⟨a, as, ref, hm⟩ := matchPieces_complete segs2 s
      (manifestsChars :: (c :: p0) :: ps0)
      (hall s (by simp)) (fun x hx => hall x (by simp [hx]))
      (by rw [tryLit_manifests c p0 ps0 hw]; simp)
    rw [List.cons_append, hm]
    simp

theorem digestValid_ne_empty (s : String) (h : digestValid s = true) : s ≠ "" := by
  intro he
  subst he
  exact absurd h (by decide)

theorem stringMk_ne_empty (l : List Char) (h : l ≠ []) : String.mk l ≠ "" := by
  intro he
  apply h
  have hd : (String.mk l).data = ("" : String).data := by rw [he]
  simpa using hd

/-- Counterexample to C8 as stated: the path `/v2/a/manifests/t!` is
not of the exact claimed shape (its reference would contain `!`), yet
`MatchManifestURL` matches it, capturing reference `t` — the underlying
pattern carries no end anchor. -/
theorem C8_counterexample_no_end_anchor :
    MatchManifestURL { method := "GET", path := "/v2/a/manifests/t!" } = (true, "a", "t") ∧
    claimShapeB "/v2/a/manifests/t!".data = false := by decide

/-- C8 (amended): `MatchManifestURL` matches exactly the paths that
begin with `/v2/<repo-path>/manifests/<c>` for a nonempty sequence of
valid repository segments and a word character `c` — the pattern is
anchored only at the start of the path, the first reference character
must be a word character, and the captured reference is the greedy run
of at most 128 reference characters; every other path yields
`(false, "", "")`. -/
theorem C8_manifest_url_matching :
    ∀ req : Request,
      (SpecManifestURLStart req.path.data → ∃ r f, MatchManifestURL req = (true, r, f)) ∧
      (¬ SpecManifestURLStart req.path.data → MatchManifestURL req = (false, "", "")) := by
  intro req
  constructor
  · intro h
    have hs := matchChars_complete _ h
    unfold MatchManifestURL
    cases hm : matchManifestURLChars req.path.data with
    | none => rw [hm] at hs; simp at hs
    | some pr =>
      obtain ⟨r0, f0⟩ := pr
      exact ⟨String.mk r0, String.mk f0, rfl⟩
  · intro h
    unfold MatchManifestURL
    cases hm : matchManifestURLChars req.path.data with
    | none => rfl
    | some pr =>
      obtain ⟨r0, f0⟩ := pr
      exact absurd (matchChars_sound _ _ _ hm).1 h

/-- Closed witness for C8: a path of the prefix shape matches, and a
path without the shape returns the empty no-match triple. -/
theorem C8_manifest_url_matching_witness :
    (∃ r f, MatchManifestURL { method := "GET", path := "/v2/a/b/manifests/latest" } =
      (true, r, f)) ∧
    MatchManifestURL { method := "GET", path := "/x" } = (false, "", "") :=
  ⟨(C8_manifest_url_matching { method := "GET", path := "/v2/a/b/manifests/latest" }).1
      ⟨[['a'], ['b']], 'l', "atest".data, by decide, by decide, by decide, by decide⟩,
   (C8_manifest_url_matching { method := "GET", path := "/x" }).2 (by
      rintro ⟨segs, c, rest2, hne, hall, hw, hp⟩
      have hd : ("/x".data : List Char) = ['/', 'x'] := rfl
      rw [hd] at hp
      have hv2 : "/v2/".data = ['/', 'v', '2', '/'] := rfl
      rw [hv2] at hp
      simp at hp)⟩

/-- C9: `ParseManifestInfoFromPath` depends only on the request path —
it never reads the body — and on success exactly one of `Tag` and
`Digest` is nonempty while `References` and `Descriptor` stay unset;
moreover `Digest` equals the matched reference (and `Tag` is empty)
when the reference parses as a content digest, and `Tag` equals the
matched reference (and `Digest` is empty) otherwise. -/
theorem C9_parse_from_path :
    ∀ (getProjectByName : String → Except DBErr (Option Project)) (req1 req2 : Request)
      (info : ManifestInfo),
      (req1.path = req2.path →
        ParseManifestInfoFromPath getProjectByName req1 =
          ParseManifestInfoFromPath getProjectByName req2) ∧
      (ParseManifestInfoFromPath getProjectByName req1 = .ok info →
        ((info.Tag = "" ∧ info.Digest ≠ "") ∨ (info.Tag ≠ "" ∧ info.Digest = "")) ∧
        info.References = [] ∧ info.Descriptor = ({} : Descriptor)) ∧
      (∀ repoChars refChars,
        matchManifestURLChars req1.path.data = some (repoChars, refChars) →
        ParseManifestInfoFromPath getProjectByName req1 = .ok info →
        info.Repository = String.mk repoChars ∧
        (digestValid (String.mk refChars) = true →
          info.Digest = String.mk refChars ∧ info.Tag = "") ∧
        (digestValid (String.mk refChars) = false →
          info.Tag = String.mk refChars ∧ info.Digest = "")) := by
  intro gp req1 req2 info
  refine ⟨fun h => ?_, fun h => ?_, fun repoChars refChars hm h => ?_⟩
  · unfold ParseManifestInfoFromPath
    rw [h]
  · unfold ParseManifestInfoFromPath at h
    cases hm : matchManifestURLChars req1.path.data with
    | none => rw [hm] at h; cases h
    | some pr =>
      obtain ⟨repoChars, refChars⟩ := pr
      rw [hm] at h
      simp only at h
      have href : refChars ≠ [] := (matchChars_sound _ _ _ hm).2
      cases hgp : gp (parseRepositoryProject (String.mk repoChars)) with
      | error e => rw [hgp] at h; cases h
      | ok po =>
        cases po with
        | none => rw [hgp] at h; cases h
        | some project =>
          rw [hgp] at h
          simp only at h
          by_cases hd : digestValid (String.mk refChars) = true
          · rw [if_pos hd] at h
            cases h
            exact ⟨Or.inl ⟨rfl, digestValid_ne_empty _ hd⟩, rfl, rfl⟩
          · rw [if_neg hd] at h
            cases h
            exact ⟨Or.inr ⟨stringMk_ne_empty refChars href, rfl⟩, rfl, rfl⟩
  · unfold ParseManifestInfoFromPath at h
    rw [hm] at h
    simp only at h
    cases hgp : gp (parseRepositoryProject (String.mk repoChars)) with
    | error e => rw [hgp] at h; cases h
    | ok po =>
      cases po with
      | none => rw [hgp] at h; cases h
      | some project =>
        rw [hgp] at h
        simp only at h
        by_cases hd : digestValid (String.mk refChars) = true
        · rw [if_pos hd] at h
          cases h
          exact ⟨rfl, fun _ => ⟨rfl, rfl⟩, fun hf => absurd hd (by simp [hf])⟩
        · rw [if_neg hd] at h
          cases h
          refine ⟨rfl, fun ht => absurd ht hd, fun _ => ⟨rfl, rfl⟩⟩

/-- Closed witness for C9: parsing `/v2/p/r/manifests/latest` against a
store that resolves project `p` gives a tag-only manifest info whose
tag is the matched reference. -/
theorem C9_parse_from_path_witness :
    ((({ ProjectID := 7, Repository := "p/r", Tag := "latest" } : ManifestInfo).Tag = "" ∧
      ({ ProjectID := 7, Repository := "p/r", Tag := "latest" } : ManifestInfo).Digest ≠ "") ∨
     (({ ProjectID := 7, Repository := "p/r", Tag := "latest" } : ManifestInfo).Tag ≠ "" ∧
      ({ ProjectID := 7, Repository := "p/r", Tag := "latest" } : ManifestInfo).Digest = "")) ∧
    ({ ProjectID := 7, Repository := "p/r", Tag := "latest" } : ManifestInfo).References = [] ∧
    ({ ProjectID := 7, Repository := "p/r", Tag := "latest" } : ManifestInfo).Descriptor =
      ({} : Descriptor) ∧
    ({ ProjectID := 7, Repository := "p/r", Tag := "latest" } : ManifestInfo).Tag =
      String.mk "latest".data ∧
    ({ ProjectID := 7, Repository := "p/r", Tag := "latest" } : ManifestInfo).Digest = "" :=
  have h2 := (C9_parse_from_path (fun _ => .ok (some { ProjectID := 7 }))
    { method := "GET", path := "/v2/p/r/manifests/latest" }
    { method := "GET", path := "/v2/p/r/manifests/latest" }
    { ProjectID := 7, Repository := "p/r", Tag := "latest" }).2.1 rfl
  have h3 := ((C9_parse_from_path (fun _ => .ok (some { ProjectID := 7 }))
    { method := "GET", path := "/v2/p/r/manifests/latest" }
    { method := "GET", path := "/v2/p/r/manifests/latest" }
    { ProjectID := 7, Repository := "p/r", Tag := "latest" }).2.2
    "p/r".data "latest".data (by decide) rfl).2.2 (by decide)
  ⟨h2.1, h2.2.1, h2.2.2, h3.1, h3.2⟩

end Harbor

